import Mathlib

/-!
# Verification of the meditation-tracker core (src/src/App.tsx)

Shallow embedding of the date/calendar engine, the CSV plan parser and the
plan-merging/override model of the tracker, together with proofs settling
the frozen claims C1-C10.

Conventions of the embedding:

* A JavaScript `Date` value is modelled by its internal timestamp
  `t : Int`, in milliseconds since the Unix epoch.  The host environment is
  modelled by a fixed offset `tz : Int` in minutes such that local time is
  UTC plus `tz` minutes (so `tz = 60` is UTC+1, `tz = -300` is UTC-5).
* The local calendar fields of a timestamp (`getFullYear`, `getMonth`,
  `getDate`, `getDay`) are derived from the local day number through a
  proleptic Gregorian calendar conversion (`civilFromDays`), which models
  the calendar arithmetic built into the JavaScript engine.
* Machine floats of the source are modelled by `Rat`; all values handled by
  the program (durations, day counts) are far inside the range where the
  two agree.
* JavaScript objects used as string-keyed maps are modelled by association
  lists in insertion order, with the object update/delete semantics
  (`jsSet`, `jsDelete`, `jsLookup`).
-/

/-! ## Gregorian calendar core

`daysFromCivil y m d` is the number of days from 1970-01-01 to the calendar
date `(y, m, d)` (month `m` is 1-based), and `civilFromDays` is the inverse
conversion.  They model the calendar arithmetic of the JavaScript `Date`
built-ins.  All divisions are `Int./`, i.e. Euclidean division, which
agrees with floor division because every divisor is positive. -/

/-- A year is a leap year in the proleptic Gregorian calendar. -/
def IsLeapYear (y : Int) : Prop := (y % 4 = 0 ∧ ¬ y % 100 = 0) ∨ y % 400 = 0

instance (y : Int) : Decidable (IsLeapYear y) := by
  unfold IsLeapYear; infer_instance

/-- Days from 0000-01-01 to the first day of year `y` (proleptic). -/
def yearStartA (y : Int) : Int :=
  365*y + (y+3)/4 - (y+99)/100 + (y+399)/400

/-- Day of year (0-based) of the first day of month `m` (1-based). -/
def cumBase (m : Int) : Int :=
  if m ≤ 1 then 0 else if m ≤ 2 then 31 else if m ≤ 3 then 59 else
  if m ≤ 4 then 90 else if m ≤ 5 then 120 else if m ≤ 6 then 151 else
  if m ≤ 7 then 181 else if m ≤ 8 then 212 else if m ≤ 9 then 243 else
  if m ≤ 10 then 273 else if m ≤ 11 then 304 else 334

/-- Leap-day adjustment: 1 for a leap year, else 0. -/
def lAdj (l : Bool) : Int := cond l 1 0

/-- Day of year (0-based) of the first day of month `m`, leap-aware. -/
def cumMonth (l : Bool) (m : Int) : Int :=
  cumBase m + (if 3 ≤ m then lAdj l else 0)

/-- Length in days of month `m` (1-based) of a year with leap flag `l`. -/
def monthLen (l : Bool) (m : Int) : Int :=
  if m = 2 then 28 + lAdj l
  else if m = 4 ∨ m = 6 ∨ m = 9 ∨ m = 11 then 30 else 31

/-- Days since 1970-01-01 of the calendar date `(y, m, d)`, month 1-based.
Total in all three arguments, matching how the JavaScript date constructor
accepts out-of-range day values. -/
def daysFromCivil (y m d : Int) : Int :=
  yearStartA y + cumMonth (decide (IsLeapYear y)) m + d - 1 - 719528

/-- Century slot (0-3) inside a 400-year era, from the day of era. -/
def centuryOf (doe : Int) : Int := if doe ≤ 36524 then 0 else (doe-1)/36524

/-- First day of era of century slot `c` (century 0 is one day longer). -/
def centuryStart (c : Int) : Int := 36524*c + (if c = 0 then 0 else 1)

/-- Year of century from the day of century; century 0 starts with a leap
year, centuries 1-3 do not. -/
def yocOf (c doc : Int) : Int :=
  if c = 0 then (4*doc)/1461 else (4*(doc+1))/1461

/-- First day of century of year-of-century `j` within century slot `c`. -/
def yearStartC (c j : Int) : Int :=
  365*j + (if c = 0 then (j+3)/4 else if j = 0 then 0 else (j-1)/4)

/-- Leap flag of year-of-century `j` within century slot `c`. -/
def leapC (c j : Int) : Bool := decide (j % 4 = 0 ∧ (j ≠ 0 ∨ c = 0))

/-- Month (1-based) from the 0-based day of year. -/
def monthFromDoy (l : Bool) (doy : Int) : Int :=
  if doy < 31 then 1 else
  if doy < 59 + lAdj l then 2 else
  if doy < 90 + lAdj l then 3 else
  if doy < 120 + lAdj l then 4 else
  if doy < 151 + lAdj l then 5 else
  if doy < 181 + lAdj l then 6 else
  if doy < 212 + lAdj l then 7 else
  if doy < 243 + lAdj l then 8 else
  if doy < 273 + lAdj l then 9 else
  if doy < 304 + lAdj l then 10 else
  if doy < 334 + lAdj l then 11 else 12

/-- Calendar date `(year, month, day)` (month 1-based) of the day that is
`z` days after 1970-01-01. -/
def civilFromDays (z : Int) : Int × Int × Int :=
  let A := z + 719528
  let era := A / 146097
  let doe := A % 146097
  let c := centuryOf doe
  let doc := doe - centuryStart c
  let j := yocOf c doc
  let doy := doc - yearStartC c j
  let l := leapC c j
  let m := monthFromDoy l doy
  (400*era + 100*c + j, m, doy - cumMonth l m + 1)

/-- The year returned by `civilFromDays`. -/
def yearOfDay (z : Int) : Int := (civilFromDays z).1

/-- The month (1-based) returned by `civilFromDays`. -/
def monthOfDay (z : Int) : Int := (civilFromDays z).2.1

/-- The day of month returned by `civilFromDays`. -/
def dayOfDay (z : Int) : Int := (civilFromDays z).2.2

/-! ### Correctness of the calendar conversions -/

/-- A calendar triple is valid: month in range and day within the month. -/
def ValidCivil (y m d : Int) : Prop :=
  1 ≤ m ∧ m ≤ 12 ∧ 1 ≤ d ∧ d ≤ monthLen (decide (IsLeapYear y)) m

theorem lAdj_cases (l : Bool) : lAdj l = 0 ∨ lAdj l = 1 := by
  cases l <;> simp [lAdj]

theorem centuryOf_spec (doe : Int) (h0 : 0 ≤ doe) (h1 : doe ≤ 146096) :
    0 ≤ centuryOf doe ∧ centuryOf doe ≤ 3 ∧
    centuryStart (centuryOf doe) ≤ doe ∧
    doe < 36524*(centuryOf doe + 1) + 1 := by
  unfold centuryOf centuryStart
  omega

theorem yocOf_spec (c doc : Int) (h0 : 0 ≤ doc)
    (h1 : doc ≤ if c = 0 then 36524 else 36523) :
    0 ≤ yocOf c doc ∧ yocOf c doc ≤ 99 ∧
    yearStartC c (yocOf c doc) ≤ doc ∧
    doc < yearStartC c (yocOf c doc + 1) := by
  unfold yocOf yearStartC at *
  omega

theorem lAdj_decide (P : Prop) [Decidable P] :
    lAdj (decide P) = if P then 1 else 0 := by
  by_cases h : P <;> simp [lAdj, h]

theorem yearLenC (c j : Int) (h0 : 0 ≤ j) (h1 : j ≤ 99) :
    yearStartC c (j+1) - yearStartC c j = 365 + lAdj (leapC c j) := by
  unfold yearStartC leapC
  rw [lAdj_decide]
  omega

theorem monthFromDoy_spec (l : Bool) (doy : Int) (h0 : 0 ≤ doy)
    (h1 : doy < 365 + lAdj l) :
    1 ≤ monthFromDoy l doy ∧ monthFromDoy l doy ≤ 12 ∧
    cumMonth l (monthFromDoy l doy) ≤ doy ∧
    doy - cumMonth l (monthFromDoy l doy) + 1 ≤ monthLen l (monthFromDoy l doy) := by
  have ha := lAdj_cases l
  unfold monthFromDoy cumMonth cumBase monthLen
  omega

theorem monthFromDoy_eq (l : Bool) (m d : Int) (hm1 : 1 ≤ m) (hm2 : m ≤ 12)
    (hd1 : 1 ≤ d) (hd2 : d ≤ monthLen l m) :
    monthFromDoy l (cumMonth l m + d - 1) = m := by
  have ha := lAdj_cases l
  unfold monthFromDoy cumMonth cumBase monthLen at *
  omega

theorem cum_bracket (l : Bool) (m d : Int) (hm1 : 1 ≤ m) (hm2 : m ≤ 12)
    (hd1 : 1 ≤ d) (hd2 : d ≤ monthLen l m) :
    0 ≤ cumMonth l m + d - 1 ∧ cumMonth l m + d - 1 < 365 + lAdj l := by
  have ha := lAdj_cases l
  unfold cumMonth cumBase monthLen at *
  omega

theorem leap_link (e c j : Int) (hc0 : 0 ≤ c) (hc3 : c ≤ 3)
    (hj0 : 0 ≤ j) (hj1 : j ≤ 99) :
    decide (IsLeapYear (400*e + 100*c + j)) = leapC c j := by
  unfold IsLeapYear leapC
  rw [decide_eq_decide]
  omega

theorem yearStartA_decomp (e c j : Int) (hc0 : 0 ≤ c) (hc3 : c ≤ 3)
    (hj0 : 0 ≤ j) (hj1 : j ≤ 99) :
    yearStartA (400*e + 100*c + j) = 146097*e + centuryStart c + yearStartC c j := by
  unfold yearStartA centuryStart yearStartC
  omega

/-- `civilFromDays` always produces a valid calendar date, and
`daysFromCivil` maps it back to the input: the conversions are mutually
inverse. -/
theorem civilFromDays_valid_inv (z : Int) :
    ValidCivil (yearOfDay z) (monthOfDay z) (dayOfDay z) ∧
    daysFromCivil (yearOfDay z) (monthOfDay z) (dayOfDay z) = z := by
  unfold yearOfDay monthOfDay dayOfDay civilFromDays
  simp only []
  set A := z + 719528 with hA
  set era := A / 146097 with hera
  set doe := A % 146097 with hdoe
  have hdoe0 : 0 ≤ doe ∧ doe ≤ 146096 := by omega
  have hAe : A = 146097*era + doe := by omega
  obtain ⟨hc0, hc3, hcl, hcu⟩ := centuryOf_spec doe hdoe0.1 hdoe0.2
  set c := centuryOf doe with hc
  set doc := doe - centuryStart c with hdoc
  have hdocr : 0 ≤ doc ∧ doc ≤ if c = 0 then 36524 else 36523 := by
    unfold centuryStart at *
    omega
  obtain ⟨hj0, hj99, hjl, hju⟩ := yocOf_spec c doc hdocr.1 hdocr.2
  set j := yocOf c doc with hj
  set doy := doc - yearStartC c j with hdoy
  have hyl := yearLenC c j hj0 hj99
  have hdoyr : 0 ≤ doy ∧ doy < 365 + lAdj (leapC c j) := by omega
  set l := leapC c j with hl
  obtain ⟨hm1, hm12, hml, hmu⟩ := monthFromDoy_spec l doy hdoyr.1 hdoyr.2
  set m := monthFromDoy l doy with hm
  set d := doy - cumMonth l m + 1 with hd
  have hlink : decide (IsLeapYear (400*era + 100*c + j)) = l :=
    leap_link era c j hc0 hc3 hj0 hj99
  constructor
  · show 1 ≤ m ∧ m ≤ 12 ∧ 1 ≤ d ∧
      d ≤ monthLen (decide (IsLeapYear (400*era + 100*c + j))) m
    rw [hlink]
    exact ⟨hm1, hm12, by omega, by omega⟩
  · unfold daysFromCivil
    rw [hlink, yearStartA_decomp era c j hc0 hc3 hj0 hj99]
    omega

/-- `yearStartA` grows by at least 365 per year. -/
theorem yearStartA_mono (y1 y2 : Int) (h : y1 < y2) :
    yearStartA (y1 + 1) ≤ yearStartA y2 := by
  unfold yearStartA
  omega

/-- Within a year, `daysFromCivil` sits between the year's first day and
the next year's first day. -/
theorem daysFromCivil_bracket (y m d : Int) (h : ValidCivil y m d) :
    yearStartA y ≤ daysFromCivil y m d + 719528 ∧
    daysFromCivil y m d + 719528 < yearStartA (y + 1) := by
  obtain ⟨hm1, hm12, hd1, hd2⟩ := h
  have hb := cum_bracket (decide (IsLeapYear y)) m d hm1 hm12 hd1 hd2
  have hy : yearStartA (y+1) - yearStartA y = 365 + lAdj (decide (IsLeapYear y)) := by
    unfold yearStartA
    rw [lAdj_decide]
    unfold IsLeapYear
    omega
  unfold daysFromCivil
  omega

/-- `daysFromCivil` is injective on valid calendar dates. -/
theorem daysFromCivil_inj (y1 m1 d1 y2 m2 d2 : Int)
    (h1 : ValidCivil y1 m1 d1) (h2 : ValidCivil y2 m2 d2)
    (heq : daysFromCivil y1 m1 d1 = daysFromCivil y2 m2 d2) :
    y1 = y2 ∧ m1 = m2 ∧ d1 = d2 := by
  have hb1 := daysFromCivil_bracket y1 m1 d1 h1
  have hb2 := daysFromCivil_bracket y2 m2 d2 h2
  have hy : y1 = y2 := by
    rcases lt_trichotomy y1 y2 with h | h | h
    · have := yearStartA_mono y1 y2 h
      omega
    · exact h
    · have := yearStartA_mono y2 y1 h
      omega
  subst hy
  obtain ⟨hm1a, hm1b, hd1a, hd1b⟩ := h1
  obtain ⟨hm2a, hm2b, hd2a, hd2b⟩ := h2
  unfold daysFromCivil at heq
  have hcum : cumMonth (decide (IsLeapYear y1)) m1 + d1 - 1 =
      cumMonth (decide (IsLeapYear y1)) m2 + d2 - 1 := by omega
  have e1 := monthFromDoy_eq (decide (IsLeapYear y1)) m1 d1 hm1a hm1b hd1a hd1b
  have e2 := monthFromDoy_eq (decide (IsLeapYear y1)) m2 d2 hm2a hm2b hd2a hd2b
  rw [hcum, e2] at e1
  exact ⟨rfl, e1.symm, by rw [e1] at hcum; omega⟩

/-- Round trip: converting a valid calendar date to a day number and back
is the identity. -/
theorem civilFromDays_daysFromCivil (y m d : Int) (h : ValidCivil y m d) :
    civilFromDays (daysFromCivil y m d) = (y, m, d) := by
  obtain ⟨hv, hinv⟩ := civilFromDays_valid_inv (daysFromCivil y m d)
  obtain ⟨e1, e2, e3⟩ := daysFromCivil_inj _ _ _ _ _ _ hv h hinv
  rw [Prod.ext_iff, Prod.ext_iff]
  exact ⟨e1, e2, e3⟩

/-! ## JavaScript `Date` layer

A `Date` value is its timestamp `t` in milliseconds since the epoch; the
environment's UTC offset is `tz` minutes (local time = UTC + `tz`).  All
reads of local calendar fields go through the local day number. -/

/-- Local day number (days since 1970-01-01, in local time) of a timestamp. -/
def jsLocalDay (tz t : Int) : Int := (t + 60000*tz) / 86400000

/-- Local `getFullYear()`. -/
def getFullYear (tz t : Int) : Int := yearOfDay (jsLocalDay tz t)

/-- Local `getMonth()` (0-based, as in JavaScript). -/
def getMonth (tz t : Int) : Int := monthOfDay (jsLocalDay tz t) - 1

/-- Local `getDate()` (day of month, 1-based). -/
def getDate (tz t : Int) : Int := dayOfDay (jsLocalDay tz t)

/-- Local `getDay()` (0 = Sunday ... 6 = Saturday); 1970-01-01 was a
Thursday. -/
def getDay (tz t : Int) : Int := (jsLocalDay tz t + 4) % 7

/-- The day-number part of `MakeDay(y, m, d)` from the ECMAScript
specification: month `m` is 0-based and both `m` and `d` may be out of
range, carrying into the year. -/
def jsMakeDay (y m d : Int) : Int :=
  daysFromCivil (y + m / 12) (m % 12 + 1) 1 + (d - 1)

/-- `MakeFullYear` from the ECMAScript specification: the `Date`
constructor and `Date.UTC` map an integral year argument between 0 and 99
to `1900 + year` before calling `MakeDay`. -/
def makeFullYear (y : Int) : Int := if 0 ≤ y ∧ y ≤ 99 then 1900 + y else y

/-- `new Date(y, m, d)` with local-time fields: midnight local time of the
(normalised) calendar day, after the two-digit-year mapping on the year
argument. -/
def mkDate (tz y m d : Int) : Int :=
  86400000 * jsMakeDay (makeFullYear y) m d - 60000*tz

/-- `Date.UTC(y, m, d)` in milliseconds, after the two-digit-year mapping
on the year argument. -/
def jsDateUTC (y m d : Int) : Int := 86400000 * jsMakeDay (makeFullYear y) m d

/-- `differenceInDays` from the source: local calendar components of both
dates are re-encoded through `Date.UTC` and the millisecond difference is
divided by the length of a day.  The difference is an exact multiple of
`86400000`, so the source's `Math.round` is the identity and the division
is exact. -/
def differenceInDays (tz a b : Int) : Int :=
  (jsDateUTC (getFullYear tz a) (getMonth tz a) (getDate tz a)
    - jsDateUTC (getFullYear tz b) (getMonth tz b) (getDate tz b)) / 86400000

theorem jsLocalDay_mkDate (tz y m d : Int) :
    jsLocalDay tz (mkDate tz y m d) = jsMakeDay (makeFullYear y) m d := by
  unfold jsLocalDay mkDate
  omega

/-- `makeFullYear` is idempotent: its image avoids the interval 0..99. -/
theorem makeFullYear_idem (y : Int) :
    makeFullYear (makeFullYear y) = makeFullYear y := by
  unfold makeFullYear
  split_ifs <;> omega

theorem getMonth_range (tz t : Int) :
    0 ≤ getMonth tz t ∧ getMonth tz t ≤ 11 := by
  obtain ⟨⟨h1, h2, _, _⟩, _⟩ := civilFromDays_valid_inv (jsLocalDay tz t)
  unfold getMonth
  omega

/-- `daysFromCivil` is linear in the day argument. -/
theorem daysFromCivil_linear (y m d : Int) :
    daysFromCivil y m d = daysFromCivil y m 1 + (d - 1) := by
  unfold daysFromCivil
  omega

/-- Re-encoding the local calendar components of a timestamp yields its
local day number. -/
theorem jsMakeDay_local (tz t : Int) :
    jsMakeDay (getFullYear tz t) (getMonth tz t) (getDate tz t)
      = jsLocalDay tz t := by
  obtain ⟨⟨h1, h2, h3, h4⟩, hinv⟩ := civilFromDays_valid_inv (jsLocalDay tz t)
  unfold jsMakeDay getFullYear getMonth getDate
  have hm0 : (monthOfDay (jsLocalDay tz t) - 1) / 12 = 0 := by omega
  have hm1 : (monthOfDay (jsLocalDay tz t) - 1) % 12
      = monthOfDay (jsLocalDay tz t) - 1 := by omega
  rw [hm0, hm1]
  have e0 : yearOfDay (jsLocalDay tz t) + 0 = yearOfDay (jsLocalDay tz t) := by
    ring
  have e1 : monthOfDay (jsLocalDay tz t) - 1 + 1 = monthOfDay (jsLocalDay tz t) := by
    ring
  rw [e0, e1]
  have := daysFromCivil_linear (yearOfDay (jsLocalDay tz t))
    (monthOfDay (jsLocalDay tz t)) (dayOfDay (jsLocalDay tz t))
  omega

/-! ### `formatKey` -/

/-- `copy.setHours(0, 0, 0, 0)`: clear the local time-of-day. -/
def setMidnight (tz t : Int) : Int := t - (t + 60000*tz) % 86400000

/-- The UTC day number that `toISOString()` prints for the timestamp
produced by `setMidnight`. -/
def formatKeyDay (tz t : Int) : Int := setMidnight tz t / 86400000

/-- Zero-pad the absolute value of `n` to `k` digits. -/
def padNum (k : Nat) (n : Int) : String :=
  let s := toString n.natAbs
  String.mk (List.replicate (k - s.length) '0') ++ s

/-- Render a calendar triple as the canonical key `YYYY-MM-DD`. -/
def civilToKeyStr (c : Int × Int × Int) : String :=
  padNum 4 c.1 ++ "-" ++ padNum 2 c.2.1 ++ "-" ++ padNum 2 c.2.2

/-- `formatKey` from the source: clear the local time-of-day, then take the
date part of `toISOString()` (which renders the UTC calendar fields). -/
def formatKey (tz t : Int) : String :=
  civilToKeyStr (civilFromDays (formatKeyDay tz t))

/-- The canonical key of the local calendar day that `t` represents. -/
def localDayKey (tz t : Int) : String :=
  civilToKeyStr (civilFromDays (jsLocalDay tz t))

theorem formatKeyDay_nonpos (tz t : Int) (h0 : -1440 < tz) (h1 : tz ≤ 0) :
    formatKeyDay tz t = jsLocalDay tz t := by
  unfold formatKeyDay setMidnight jsLocalDay
  omega

theorem formatKeyDay_pos (tz t : Int) (h0 : 0 < tz) (h1 : tz < 1440) :
    formatKeyDay tz t = jsLocalDay tz t - 1 := by
  unfold formatKeyDay setMidnight jsLocalDay
  omega

/-! ### Default ramp -/

def DEFAULT_START_DURATION : Int := 10

def TARGET_DURATION : Int := 60

def DEFAULT_RAMP_DAYS : Int := 30

/-- JavaScript `Math.round`: round half toward positive infinity. -/
def jsRound (q : ℚ) : Int := ⌊q + 1/2⌋

/-- `getDefaultDuration` from the source.  The source computes with
double-precision floats; for the day indices that occur (bounded by the
length of a month) the rational computation agrees exactly. -/
def getDefaultDuration (tz t : Int) : Int :=
  let monthStart := mkDate tz (getFullYear tz t) (getMonth tz t) 1
  let dayIndex : Int := max 0 (differenceInDays tz t monthStart)
  if DEFAULT_RAMP_DAYS ≤ 1 then TARGET_DURATION else
  let dailyIncrease : ℚ :=
    ((TARGET_DURATION : ℚ) - (DEFAULT_START_DURATION : ℚ))
      / ((DEFAULT_RAMP_DAYS : ℚ) - 1)
  let projected : ℚ := (DEFAULT_START_DURATION : ℚ) + (dayIndex : ℚ) * dailyIncrease
  let rounded : Int := jsRound (projected / 5) * 5
  max DEFAULT_START_DURATION (min TARGET_DURATION rounded)

/-! ### Calendar grid -/

/-- A cell of the month grid: the cell's date and whether it belongs to the
reference month. -/
structure CalendarCell where
  date : Int
  isCurrentMonth : Bool
deriving DecidableEq

/-- The cell constructed for grid index `i`, with `w` leading empty days:
its date is day `i - w + 1` of the reference month, flagged by whether its
month equals the reference month. -/
def buildCalendarCell (tz y m w : Int) (i : Nat) : CalendarCell :=
  ⟨mkDate tz y m ((i : Int) - w + 1),
   decide (getMonth tz (mkDate tz y m ((i : Int) - w + 1)) = m)⟩

/-- `buildCalendar` from the source.  `Math.ceil((leading + totalDays) / 7) * 7`
equals `((leading + totalDays + 6) / 7) * 7` because both counts are
non-negative integers. -/
def buildCalendar (tz ref : Int) : List CalendarCell :=
  let y := getFullYear tz ref
  let m := getMonth tz ref
  let startOfMonth := mkDate tz y m 1
  let endOfMonth := mkDate tz y (m+1) 0
  let leadingEmptyDays := getDay tz startOfMonth
  let totalDays := getDate tz endOfMonth
  let totalCells := ((leadingEmptyDays + totalDays + 6) / 7) * 7
  (List.range totalCells.toNat).map (buildCalendarCell tz y m leadingEmptyDays)

/-! ### Month-successor lemmas -/

theorem monthLen_range (l : Bool) (m : Int) (_h1 : 1 ≤ m) (_h2 : m ≤ 12) :
    28 ≤ monthLen l m ∧ monthLen l m ≤ 31 := by
  have := lAdj_cases l
  unfold monthLen
  omega

theorem yearStartA_succ (y : Int) :
    yearStartA (y+1) = yearStartA y + 365 + lAdj (decide (IsLeapYear y)) := by
  unfold yearStartA
  rw [lAdj_decide]
  unfold IsLeapYear
  omega

theorem cum_succ (l : Bool) (m : Int) (h1 : 1 ≤ m) (h2 : m ≤ 11) :
    cumMonth l (m+1) = cumMonth l m + monthLen l m := by
  have := lAdj_cases l
  unfold cumMonth cumBase monthLen
  omega

/-- First day of the next month = first day of this month + its length. -/
theorem month_first_succ (y m : Int) (h1 : 1 ≤ m) (h2 : m ≤ 12) :
    daysFromCivil (if m = 12 then y+1 else y) (if m = 12 then 1 else m+1) 1
      = daysFromCivil y m 1 + monthLen (decide (IsLeapYear y)) m := by
  by_cases hm : m = 12
  · subst hm
    norm_num
    unfold daysFromCivil
    rw [yearStartA_succ]
    have := lAdj_cases (decide (IsLeapYear y))
    have := lAdj_cases (decide (IsLeapYear (y+1)))
    unfold cumMonth cumBase monthLen
    omega
  · simp only [if_neg hm]
    unfold daysFromCivil
    rw [cum_succ _ _ h1 (by omega)]
    omega

/-! ### Structure of the month grid -/

/-- The local day number of the cell constructed for day argument `d` of
month `m` (0-based, in range) of raw year argument `y`: the constructor
maps the year through `makeFullYear`. -/
theorem cellDay_eq (tz y m d : Int) (hm0 : 0 ≤ m) (hm11 : m ≤ 11) :
    jsLocalDay tz (mkDate tz y m d)
      = daysFromCivil (makeFullYear y) (m + 1) 1 + d - 1 := by
  rw [jsLocalDay_mkDate]
  unfold jsMakeDay
  have e0 : m / 12 = 0 := by omega
  have e1 : m % 12 = m := by omega
  rw [e0, e1]
  have e2 : makeFullYear y + 0 = makeFullYear y := by ring
  rw [e2]
  ring

/-- The `endOfMonth` trick `new Date(y, m + 1, 0)` lands on the last day of
month `m` of `makeFullYear y`, so its `getDate()` is that month's length. -/
theorem totalDays_eq (tz y m : Int) (hm0 : 0 ≤ m) (hm11 : m ≤ 11) :
    getDate tz (mkDate tz y (m + 1) 0)
      = monthLen (decide (IsLeapYear (makeFullYear y))) (m + 1) := by
  set Y := makeFullYear y with hY
  set len := monthLen (decide (IsLeapYear Y)) (m + 1) with hlen
  have hlr := monthLen_range (decide (IsLeapYear Y)) (m+1) (by omega) (by omega)
  have hsucc := month_first_succ Y (m+1) (by omega) (by omega)
  have hday : jsLocalDay tz (mkDate tz y (m+1) 0)
      = daysFromCivil Y (m+1) 1 + len - 1 := by
    rw [jsLocalDay_mkDate, ← hY]
    unfold jsMakeDay
    by_cases h11 : m = 11
    · simp only [if_pos (show m + 1 = 12 by omega)] at hsucc
      have e0 : (m+1) / 12 = 1 := by omega
      have e1 : (m+1) % 12 = 0 := by omega
      rw [e0, e1]
      have e2 : (0:Int) + 1 = 1 := by ring
      rw [e2]
      omega
    · simp only [if_neg (show ¬ m + 1 = 12 by omega)] at hsucc
      have e0 : (m+1) / 12 = 0 := by omega
      have e1 : (m+1) % 12 = m + 1 := by omega
      rw [e0, e1]
      have e2 : Y + 0 = Y := by ring
      rw [e2]
      omega
  have hlin := daysFromCivil_linear Y (m+1) len
  have hvalid : ValidCivil Y (m+1) len :=
    ⟨by omega, by omega, by omega, by rw [hlen]⟩
  have hrt := civilFromDays_daysFromCivil Y (m+1) len hvalid
  unfold getDate dayOfDay
  rw [hday]
  have e3 : daysFromCivil Y (m+1) 1 + len - 1 = daysFromCivil Y (m+1) len := by
    omega
  rw [e3, hrt]

/-- Days inside month `m+1` of year `Y` convert back to the expected
calendar components. -/
theorem monthCell_civil (Y m : Int) (hm0 : 0 ≤ m) (hm11 : m ≤ 11) (k : Int)
    (h0 : 0 ≤ k)
    (h1 : k < monthLen (decide (IsLeapYear Y)) (m + 1)) :
    yearOfDay (daysFromCivil Y (m + 1) 1 + k) = Y ∧
    monthOfDay (daysFromCivil Y (m + 1) 1 + k) = m + 1 ∧
    dayOfDay (daysFromCivil Y (m + 1) 1 + k) = k + 1 := by
  have hvalid : ValidCivil Y (m+1) (k+1) := ⟨by omega, by omega, by omega, by omega⟩
  have hrt := civilFromDays_daysFromCivil Y (m+1) (k+1) hvalid
  have hlin := daysFromCivil_linear Y (m+1) (k+1)
  have e : daysFromCivil Y (m+1) 1 + k = daysFromCivil Y (m+1) (k+1) := by omega
  rw [e]
  unfold yearOfDay monthOfDay dayOfDay
  rw [hrt]
  exact ⟨rfl, rfl, rfl⟩

/-- Days just before month `m+1` of year `Y` belong to the previous
month. -/
theorem prevCell_civil (Y m : Int) (hm0 : 0 ≤ m) (hm11 : m ≤ 11) (k : Int)
    (h0 : -6 ≤ k) (h1 : k < 0) :
    monthOfDay (daysFromCivil Y (m + 1) 1 + k) ≠ m + 1 := by
  set y := Y
  set py := if m = 0 then y - 1 else y with hpy
  set pm : Int := if m = 0 then 12 else m with hpm
  have hpm1 : 1 ≤ pm ∧ pm ≤ 12 := by rw [hpm]; split_ifs <;> omega
  set plen := monthLen (decide (IsLeapYear py)) pm with hplen
  have hplr := monthLen_range (decide (IsLeapYear py)) pm hpm1.1 hpm1.2
  have hsucc := month_first_succ py pm hpm1.1 hpm1.2
  have hF : daysFromCivil y (m+1) 1 = daysFromCivil py pm 1 + plen := by
    by_cases hm' : m = 0
    · have hpm12 : pm = 12 := by rw [hpm, if_pos hm']
      have hpy' : py = y - 1 := by rw [hpy, if_pos hm']
      simp only [if_pos hpm12] at hsucc
      have e1 : py + 1 = y := by rw [hpy']; ring
      rw [e1] at hsucc
      have e2 : m + 1 = 1 := by omega
      rw [e2]
      exact hsucc
    · have hpmm : pm = m := by rw [hpm, if_neg hm']
      have hpyy : py = y := by rw [hpy, if_neg hm']
      simp only [if_neg (show ¬ pm = 12 by omega)] at hsucc
      rw [hpyy, hpmm] at hsucc
      have hplen2 : plen = monthLen (decide (IsLeapYear y)) m := by
        rw [hplen, hpyy, hpmm]
      rw [hpyy, hpmm, hplen2]
      exact hsucc
  have hvalid : ValidCivil py pm (plen + k + 1) :=
    ⟨hpm1.1, hpm1.2, by omega, by omega⟩
  have hrt := civilFromDays_daysFromCivil py pm (plen + k + 1) hvalid
  have hlin := daysFromCivil_linear py pm (plen + k + 1)
  have e : daysFromCivil y (m+1) 1 + k = daysFromCivil py pm (plen + k + 1) := by
    omega
  rw [e]
  unfold monthOfDay
  rw [hrt]
  show pm ≠ m + 1
  rw [hpm]
  split_ifs with h <;> omega

/-- Days just after month `m+1` of year `Y` belong to the next month. -/
theorem nextCell_civil (Y m : Int) (hm0 : 0 ≤ m) (hm11 : m ≤ 11) (k : Int)
    (h0 : monthLen (decide (IsLeapYear Y)) (m + 1) ≤ k)
    (h1 : k ≤ monthLen (decide (IsLeapYear Y)) (m + 1) + 6) :
    monthOfDay (daysFromCivil Y (m + 1) 1 + k) ≠ m + 1 := by
  set y := Y
  set len := monthLen (decide (IsLeapYear y)) (m+1) with hlen
  set ny := if m + 1 = 12 then y + 1 else y with hny
  set nm : Int := if m + 1 = 12 then 1 else m + 2 with hnm
  have hnm1 : 1 ≤ nm ∧ nm ≤ 12 := by rw [hnm]; split_ifs <;> omega
  have hnlr := monthLen_range (decide (IsLeapYear ny)) nm hnm1.1 hnm1.2
  have hsucc := month_first_succ y (m+1) (by omega) (by omega)
  have hF : daysFromCivil ny nm 1 = daysFromCivil y (m+1) 1 + len := by
    rw [hny, hnm]
    by_cases h12 : m + 1 = 12
    · rw [if_pos h12, if_pos h12] at hsucc ⊢
      exact hsucc
    · rw [if_neg h12, if_neg h12] at hsucc ⊢
      have e : m + 1 + 1 = m + 2 := by ring
      rw [e] at hsucc
      exact hsucc
  have hvalid : ValidCivil ny nm (k - len + 1) :=
    ⟨hnm1.1, hnm1.2, by omega, by omega⟩
  have hrt := civilFromDays_daysFromCivil ny nm (k - len + 1) hvalid
  have hlin := daysFromCivil_linear ny nm (k - len + 1)
  have e : daysFromCivil y (m+1) 1 + k = daysFromCivil ny nm (k - len + 1) := by
    omega
  rw [e]
  unfold monthOfDay
  rw [hrt]
  show nm ≠ m + 1
  rw [hnm]
  split_ifs with h <;> omega

theorem getDay_nonneg (tz t : Int) : 0 ≤ getDay tz t ∧ getDay tz t ≤ 6 := by
  unfold getDay
  omega

theorem getDate_pos (tz t : Int) : 1 ≤ getDate tz t := by
  obtain ⟨⟨_, _, h3, _⟩, _⟩ := civilFromDays_valid_inv (jsLocalDay tz t)
  unfold getDate
  omega

/-- `buildCalendar` is the map of the cell builder over an index range
whose integer size is the rounded-up cell count. -/
theorem buildCalendar_cells (tz ref : Int) :
    ∃ N : Nat, buildCalendar tz ref = (List.range N).map
        (buildCalendarCell tz (getFullYear tz ref) (getMonth tz ref)
          (getDay tz (mkDate tz (getFullYear tz ref) (getMonth tz ref) 1))) ∧
      (N : Int) = (getDay tz (mkDate tz (getFullYear tz ref) (getMonth tz ref) 1)
        + getDate tz (mkDate tz (getFullYear tz ref) (getMonth tz ref + 1) 0) + 6)
          / 7 * 7 := by
  refine ⟨((getDay tz (mkDate tz (getFullYear tz ref) (getMonth tz ref) 1)
    + getDate tz (mkDate tz (getFullYear tz ref) (getMonth tz ref + 1) 0) + 6)
      / 7 * 7).toNat, by rfl, ?_⟩
  have hw := getDay_nonneg tz (mkDate tz (getFullYear tz ref) (getMonth tz ref) 1)
  have htd := getDate_pos tz (mkDate tz (getFullYear tz ref) (getMonth tz ref + 1) 0)
  rw [Int.toNat_of_nonneg (by omega)]

/-- Claim C3 (corrected): for every reference date, `buildCalendar` returns
a cell list whose length is a positive multiple of 7 (so the last week row
is always complete) and whose first cell falls on a Sunday.  The month the
grid covers is the month of `new Date(getFullYear(ref), getMonth(ref), 1)`,
whose year is `makeFullYear` of the reference's local year — the
reference's own year exactly when that year lies outside 0..99 (the
constructor's two-digit-year mapping sends 0..99 to 1900..1999).  Every day
of that month appears exactly once (existence plus no duplicate dates) with
`isCurrentMonth = true`, and a cell is flagged as current exactly when it
lies in that month. -/
theorem C3_buildCalendar_grid (tz ref : Int) :
    0 < (buildCalendar tz ref).length ∧
    (buildCalendar tz ref).length % 7 = 0 ∧
    (∃ c rest, buildCalendar tz ref = c :: rest ∧ getDay tz c.date = 0) ∧
    (¬ (0 ≤ getFullYear tz ref ∧ getFullYear tz ref ≤ 99) →
      makeFullYear (getFullYear tz ref) = getFullYear tz ref) ∧
    (∀ cell ∈ buildCalendar tz ref,
      (cell.isCurrentMonth = true ↔
        (getFullYear tz cell.date = makeFullYear (getFullYear tz ref) ∧
          getMonth tz cell.date = getMonth tz ref))) ∧
    (∀ z : Int, yearOfDay z = makeFullYear (getFullYear tz ref) →
      monthOfDay z = getMonth tz ref + 1 →
      ∃ cell ∈ buildCalendar tz ref,
        jsLocalDay tz cell.date = z ∧ cell.isCurrentMonth = true) ∧
    ((buildCalendar tz ref).map (fun c => jsLocalDay tz c.date)).Nodup := by
  obtain ⟨hm0, hm11⟩ := getMonth_range tz ref
  obtain ⟨N, hN, hNv⟩ := buildCalendar_cells tz ref
  have hcd := fun d =>
    cellDay_eq tz (getFullYear tz ref) (getMonth tz ref) d hm0 hm11
  have htd := totalDays_eq tz (getFullYear tz ref) (getMonth tz ref) hm0 hm11
  have hmc := monthCell_civil (makeFullYear (getFullYear tz ref))
    (getMonth tz ref) hm0 hm11
  have hpc := prevCell_civil (makeFullYear (getFullYear tz ref))
    (getMonth tz ref) hm0 hm11
  have hnc := nextCell_civil (makeFullYear (getFullYear tz ref))
    (getMonth tz ref) hm0 hm11
  have hwb := getDay_nonneg tz (mkDate tz (getFullYear tz ref) (getMonth tz ref) 1)
  have hlr := monthLen_range (decide (IsLeapYear (makeFullYear (getFullYear tz ref))))
    (getMonth tz ref + 1) (by omega) (by omega)
  set y := getFullYear tz ref with hy
  set m := getMonth tz ref with hm
  set Y := makeFullYear y with hYd
  set F := daysFromCivil Y (m + 1) 1 with hFd
  set len := monthLen (decide (IsLeapYear Y)) (m + 1) with hlend
  set w := getDay tz (mkDate tz y m 1) with hwd
  set td := getDate tz (mkDate tz y (m+1) 0) with htdd
  have hwF : w = (F + 4) % 7 := by
    rw [hwd]
    unfold getDay
    have h1 := hcd 1
    omega
  have hNlen : (buildCalendar tz ref).length = N := by
    rw [hN, List.length_map, List.length_range]
  have hNfacts : 0 < N ∧ (N : Int) % 7 = 0 ∧ (w + len : Int) ≤ N ∧
      (N : Int) ≤ w + len + 6 := by
    omega
  refine ⟨by omega, by omega, ?_, ?_, ?_, ?_, ?_⟩
  · -- the first cell is a Sunday
    obtain ⟨k, hk⟩ : ∃ k, N = k + 1 := ⟨N - 1, by omega⟩
    rw [hN, hk, List.range_succ_eq_map, List.map_cons]
    refine ⟨_, _, rfl, ?_⟩
    show getDay tz (buildCalendarCell tz y m w 0).date = 0
    unfold buildCalendarCell getDay
    simp only [Nat.cast_zero]
    have h1 := hcd (0 - w + 1)
    omega
  · -- outside 0..99 the two-digit-year mapping is the identity
    intro h
    rw [hYd]
    unfold makeFullYear
    rw [if_neg h]
  · -- the current-month flag is month membership
    intro cell hcell
    rw [hN, List.mem_map] at hcell
    obtain ⟨i, hi, rfl⟩ := hcell
    rw [List.mem_range] at hi
    have hiN : (i : Int) < N := by omega
    unfold buildCalendarCell
    simp only [decide_eq_true_eq]
    have hld : jsLocalDay tz (mkDate tz y m ((i : Int) - w + 1)) = F + ((i : Int) - w) := by
      have := hcd ((i : Int) - w + 1)
      omega
    constructor
    · intro hcur
      refine ⟨?_, hcur⟩
      unfold getMonth at hcur
      rw [hld] at hcur
      by_cases hk0 : (0:ℤ) ≤ (i : Int) - w
      · by_cases hklen : (i : Int) - w < len
        · have hcc := hmc ((i : Int) - w) hk0 hklen
          unfold getFullYear
          rw [hld]
          exact hcc.1
        · exfalso
          exact hnc ((i : Int) - w) (by omega) (by omega) (by omega)
      · exfalso
        exact hpc ((i : Int) - w) (by omega) (by omega) (by omega)
    · exact fun h => h.2
  · -- every day of the reference month occurs with the flag set
    intro z hz1 hz2
    obtain ⟨⟨v1, v2, v3, v4⟩, hinv⟩ := civilFromDays_valid_inv z
    rw [hz1, hz2] at hinv v4
    have hlin := daysFromCivil_linear Y (m+1) (dayOfDay z)
    have hzF : z = F + (dayOfDay z - 1) := by omega
    have hin : ((w + (dayOfDay z - 1)).toNat : Int) = w + (dayOfDay z - 1) :=
      Int.toNat_of_nonneg (by omega)
    have hiN : (w + (dayOfDay z - 1)).toNat < N := by omega
    refine ⟨buildCalendarCell tz y m w (w + (dayOfDay z - 1)).toNat, ?_, ?_, ?_⟩
    · rw [hN]
      exact List.mem_map.mpr ⟨_, List.mem_range.mpr hiN, rfl⟩
    · simp only [buildCalendarCell]
      have := hcd ((((w + (dayOfDay z - 1)).toNat : Int)) - w + 1)
      omega
    · simp only [buildCalendarCell, decide_eq_true_eq]
      have hld : jsLocalDay tz
          (mkDate tz y m ((((w + (dayOfDay z - 1)).toNat : Int)) - w + 1))
          = F + (dayOfDay z - 1) := by
        have := hcd ((((w + (dayOfDay z - 1)).toNat : Int)) - w + 1)
        omega
      have hcc := hmc (dayOfDay z - 1) (by omega) (by omega)
      unfold getMonth
      rw [hld]
      omega
  · -- cell dates are pairwise distinct
    rw [hN, List.map_map]
    refine List.Nodup.map_on ?_ (List.nodup_range N)
    intro a ha b hb hab
    simp only [Function.comp, buildCalendarCell] at hab
    have h1 := hcd ((a : Int) - w + 1)
    have h2 := hcd ((b : Int) - w + 1)
    omega

/-! ### The default ramp -/

theorem jsRound_mono {a b : ℚ} (h : a ≤ b) : jsRound a ≤ jsRound b := by
  unfold jsRound
  exact Int.floor_le_floor (by linarith)

/-- Inside `getDefaultDuration`, the clamped day index is the (0-based) day
of the month: the two-digit-year mapping applied by the `Date` constructor
while building `monthStart` is applied again by `Date.UTC` to the
reference's own year inside `differenceInDays`, so the two cancel. -/
theorem dayIndex_eq (tz t : Int) :
    max 0 (differenceInDays tz t
      (mkDate tz (getFullYear tz t) (getMonth tz t) 1)) = getDate tz t - 1 := by
  obtain ⟨hm0, hm11⟩ := getMonth_range tz t
  have hdp := getDate_pos tz t
  have hms := cellDay_eq tz (getFullYear tz t) (getMonth tz t) 1 hm0 hm11
  have hlr := monthLen_range (decide (IsLeapYear (makeFullYear (getFullYear tz t))))
    (getMonth tz t + 1) (by omega) (by omega)
  set yv := getFullYear tz t with hyv
  set mv := getMonth tz t with hmv
  set dv := getDate tz t with hdv
  set Y := makeFullYear yv with hY
  have hvalid : ValidCivil Y (mv + 1) 1 := ⟨by omega, by omega, by omega, by omega⟩
  have hrt := civilFromDays_daysFromCivil Y (mv + 1) 1 hvalid
  have hday : jsLocalDay tz (mkDate tz yv mv 1) = daysFromCivil Y (mv + 1) 1 := by
    omega
  have hgY : getFullYear tz (mkDate tz yv mv 1) = Y := by
    unfold getFullYear yearOfDay
    rw [hday, hrt]
  have hgM : getMonth tz (mkDate tz yv mv 1) = mv := by
    unfold getMonth monthOfDay
    rw [hday, hrt]
    show mv + 1 - 1 = mv
    omega
  have hgD : getDate tz (mkDate tz yv mv 1) = 1 := by
    unfold getDate dayOfDay
    rw [hday, hrt]
  have hidem : makeFullYear Y = Y := by
    rw [hY]
    exact makeFullYear_idem yv
  unfold differenceInDays
  rw [← hyv, ← hmv, ← hdv]
  rw [hgY, hgM, hgD]
  unfold jsDateUTC
  rw [hidem, ← hY]
  unfold jsMakeDay
  have e0 : mv / 12 = 0 := by omega
  have e1 : mv % 12 = mv := by omega
  rw [e0, e1]
  omega

/-- Closed form of `getDefaultDuration` in terms of the day of month. -/
theorem getDefaultDuration_eq (tz t : Int) :
    getDefaultDuration tz t = max DEFAULT_START_DURATION (min TARGET_DURATION
      (jsRound (((DEFAULT_START_DURATION : ℚ) + ((getDate tz t - 1 : Int) : ℚ) *
        (((TARGET_DURATION : ℚ) - (DEFAULT_START_DURATION : ℚ))
          / ((DEFAULT_RAMP_DAYS : ℚ) - 1))) / 5) * 5)) := by
  simp only [getDefaultDuration]
  rw [if_neg (by norm_num [DEFAULT_RAMP_DAYS] : ¬ DEFAULT_RAMP_DAYS ≤ 1)]
  rw [dayIndex_eq]

/-- Claim C6: with the fixed configuration (start 10, target 60, 30 ramp
days), `getDefaultDuration` is monotonically non-decreasing in the day
index within any single month, and always lies in the closed interval
from `DEFAULT_START_DURATION` to `TARGET_DURATION`. -/
theorem C6_default_ramp :
    (∀ tz t1 t2 : Int, getFullYear tz t1 = getFullYear tz t2 →
      getMonth tz t1 = getMonth tz t2 →
      getDate tz t1 ≤ getDate tz t2 →
      getDefaultDuration tz t1 ≤ getDefaultDuration tz t2) ∧
    (∀ tz t : Int, DEFAULT_START_DURATION ≤ getDefaultDuration tz t ∧
      getDefaultDuration tz t ≤ TARGET_DURATION) := by
  constructor
  · intro tz t1 t2 hy hm hd
    rw [getDefaultDuration_eq, getDefaultDuration_eq]
    have hc : ((getDate tz t1 - 1 : Int) : ℚ) ≤ ((getDate tz t2 - 1 : Int) : ℚ) := by
      exact_mod_cast (by omega : getDate tz t1 - 1 ≤ getDate tz t2 - 1)
    have hq := jsRound_mono (a := ((DEFAULT_START_DURATION : ℚ)
        + ((getDate tz t1 - 1 : Int) : ℚ) *
        (((TARGET_DURATION : ℚ) - (DEFAULT_START_DURATION : ℚ))
          / ((DEFAULT_RAMP_DAYS : ℚ) - 1))) / 5)
      (b := ((DEFAULT_START_DURATION : ℚ) + ((getDate tz t2 - 1 : Int) : ℚ) *
        (((TARGET_DURATION : ℚ) - (DEFAULT_START_DURATION : ℚ))
          / ((DEFAULT_RAMP_DAYS : ℚ) - 1))) / 5)
      (by
        simp only [DEFAULT_START_DURATION, TARGET_DURATION, DEFAULT_RAMP_DAYS]
        push_cast
        push_cast at hc
        linarith)
    simp only [max_def, min_def]
    split_ifs <;> omega
  · intro tz t
    rw [getDefaultDuration_eq]
    simp only [max_def, min_def, DEFAULT_START_DURATION, TARGET_DURATION]
    split_ifs <;> omega

/-- Claim C2, counterexample: in a UTC+1 environment (`tz = 60`), the epoch
timestamp lies on local day 1970-01-01, but `formatKey` renders
"1969-12-31": the key does not name the same local calendar day. -/
theorem C2_formatKey_counterexample :
    formatKey 60 0 ≠ localDayKey 60 0 ∧
    formatKey 60 0 = "1969-12-31" ∧ localDayKey 60 0 = "1970-01-01" := by
  decide

/-- Claim C2, amended: `formatKey` names the same local calendar day as its
argument exactly in environments whose UTC offset is non-positive (local
time at or behind UTC); in environments ahead of UTC it names the previous
local calendar day. -/
theorem C2_formatKey_amended :
    (∀ tz t : Int, -1440 < tz → tz ≤ 0 → formatKey tz t = localDayKey tz t) ∧
    (∀ tz t : Int, 0 < tz → tz < 1440 →
      formatKey tz t = civilToKeyStr (civilFromDays (jsLocalDay tz t - 1))) := by
  constructor
  · intro tz t h0 h1
    unfold formatKey localDayKey
    rw [formatKeyDay_nonpos tz t h0 h1]
  · intro tz t h0 h1
    unfold formatKey
    rw [formatKeyDay_pos tz t h0 h1]

theorem C2_formatKey_amended_witness :
    formatKey (-300) 0 = localDayKey (-300) 0 ∧
    formatKey (-300) 0 = "1969-12-31" := by
  constructor
  · exact C2_formatKey_amended.1 (-300) 0 (by norm_num) (by norm_num)
  · decide

/-! ## CSV plan parser

Strings are handled with Lean's `String`; `String.trim` models the
JavaScript `trim()` (both strip ASCII whitespace; no input of interest
carries exotic Unicode spaces).  JavaScript objects keyed by strings are
modelled as association lists in insertion order with `jsSet` / `jsDelete`
/ `List.lookup`. -/

/-- Trim ASCII whitespace from both ends of a character list; the
structural-recursion counterpart of `String.trim` (extensionally equal to
it: both strip `Char.isWhitespace` characters from the two ends). -/
def trimChars (l : List Char) : List Char :=
  ((l.dropWhile Char.isWhitespace).reverse.dropWhile Char.isWhitespace).reverse

/-- `String.trim`, computed structurally. -/
def jsTrim (s : String) : String := String.mk (trimChars s.toList)

/-- Split a character list at newline characters; the structural
counterpart of `String.splitOn "\n"` (the `\r` of a `\r\n` pair is
removed by the subsequent trim, as in the source). -/
def splitNl (l : List Char) : List (List Char) :=
  l.foldr (fun c r => if c = '\n' then [] :: r else (c :: r.headI) :: r.tail) [[]]

/-- A parsed plan entry: duration in minutes, optional note. -/
structure PlanEntry where
  duration : Int
  note : Option String
deriving DecidableEq

/-- Object property update: replace in place when the key exists (keys of a
JavaScript object are unique), else append; objects keep insertion order. -/
def jsSet : List (String × PlanEntry) → String → PlanEntry →
    List (String × PlanEntry)
  | [], k, v => [(k, v)]
  | p :: m, k, v => if p.1 = k then (k, v) :: m else p :: jsSet m k v

/-- Object property deletion. -/
def jsDelete (m : List (String × PlanEntry)) (k : String) :
    List (String × PlanEntry) :=
  m.filter (fun p => !(p.1 == k))

/-- The quote-aware CSV cell splitter (`splitCsvLine` inner loop): a double
quote toggles the in-quotes state, a doubled quote inside quotes is an
escaped literal quote, commas split only outside quotes, every cell is
trimmed when pushed. -/
def splitCsvLineAux : List Char → List Char → Bool → List String →
    List String × Bool
  | [], cur, inQ, acc => (acc ++ [jsTrim (String.mk cur)], inQ)
  | '"' :: '"' :: rest, cur, true, acc =>
      splitCsvLineAux rest (cur ++ ['"']) true acc
  | '"' :: rest, cur, inQ, acc => splitCsvLineAux rest cur (!inQ) acc
  | ',' :: rest, cur, false, acc =>
      splitCsvLineAux rest [] false (acc ++ [jsTrim (String.mk cur)])
  | c :: rest, cur, inQ, acc => splitCsvLineAux rest (cur ++ [c]) inQ acc

/-- `splitCsvLine` from the source: the cells and whether the line ended
still inside an open quote. -/
def splitCsvLine (line : String) : List String × Bool :=
  splitCsvLineAux line.toList [] false []

/-- `cell.replace(/^"|"$/g, '')`: strip one leading quote (if present) and
one trailing quote (if present), independently. -/
def stripOuterQuotes (s : String) : String :=
  let l := s.toList
  let l1 := if l.head? = some '"' then l.drop 1 else l
  let l2 := if l1 ≠ [] ∧ l1.getLast? = some '"' then l1.dropLast else l1
  String.mk l2

/-- Cell normalisation from the source: strip outer quotes, then trim. -/
def normalizeCell (s : String) : String := jsTrim (stripOuterQuotes s)

/-- Case-insensitive substring test, modelling `/pat/i.test(cell)` for a
literal pattern. -/
def strContainsCI (s pat : String) : Bool :=
  (s.toList.map Char.toLower).tails.any
    (fun t => (pat.toList.map Char.toLower).isPrefixOf t)

/-- Numeric value of a digit list. -/
def digitsToNat (l : List Char) : Nat :=
  l.foldl (fun a c => 10*a + (c.toNat - 48)) 0

/-- Modelled JavaScript `new Date(string)` for the ISO date-only format
`YYYY-MM-DD`, which the plan format prescribes: such strings parse to UTC
midnight of the named calendar day (an out-of-range month or day is an
invalid date).  Other string shapes are modelled as invalid.  Returns the
timestamp in milliseconds. -/
def jsParseDate (s : String) : Option Int :=
  match s.toList with
  | [y1, y2, y3, y4, '-', m1, m2, '-', d1, d2] =>
    if ([y1,y2,y3,y4,m1,m2,d1,d2].all Char.isDigit) then
      let y : Int := (digitsToNat [y1,y2,y3,y4] : Int)
      let m : Int := (digitsToNat [m1,m2] : Int)
      let d : Int := (digitsToNat [d1,d2] : Int)
      if 1 ≤ m ∧ m ≤ 12 ∧ 1 ≤ d ∧ d ≤ monthLen (decide (IsLeapYear y)) m then
        some (86400000 * daysFromCivil y m d)
      else none
    else none
  | _ => none

/-- Modelled JavaScript `parseFloat`: parse the longest numeric prefix with
optional sign and decimal point.  `none` stands for a result that is not a
finite number (`NaN` when no digits are consumed, or an `Infinity`
literal), which the source rejects through `Number.isFinite`.  Exponents
are not modelled; no input of interest carries one.  The result is an
exact decimal, represented as a signed mantissa and a count of fraction
digits; `floatVal` gives its rational value. -/
def jsParseFloat (s : String) : Option (Int × Nat) :=
  let l := s.toList
  let signed : Int × List Char := match l with
    | '-' :: r => (-1, r)
    | '+' :: r => (1, r)
    | r => (1, r)
  let intPart := signed.2.takeWhile Char.isDigit
  let rest := signed.2.dropWhile Char.isDigit
  let fracPart := match rest with
    | '.' :: r => r.takeWhile Char.isDigit
    | _ => []
  if intPart = [] ∧ fracPart = [] then none
  else some (signed.1 * ((digitsToNat intPart : Int) * 10 ^ fracPart.length
    + (digitsToNat fracPart : Int)), fracPart.length)

/-- The rational value of a parsed decimal. -/
def floatVal (p : Int × Nat) : ℚ := (p.1 : ℚ) / 10 ^ p.2

/-- `Math.round` of a parsed decimal, in integer arithmetic:
`jsRoundF_eq_jsRound` shows it is `jsRound` of the value. -/
def jsRoundF (p : Int × Nat) : Int := (2 * p.1 + 10 ^ p.2) / (2 * 10 ^ p.2)

theorem floatVal_pos (p : Int × Nat) : 0 < floatVal p ↔ 0 < p.1 := by
  unfold floatVal
  rw [div_pos_iff]
  constructor
  · rintro (⟨h, _⟩ | ⟨_, h⟩)
    · exact_mod_cast h
    · exact absurd h (not_lt.mpr (by positivity))
  · intro h
    exact Or.inl ⟨by exact_mod_cast h, by positivity⟩

theorem floatVal_nonpos (p : Int × Nat) : floatVal p ≤ 0 ↔ p.1 ≤ 0 := by
  rw [← not_lt, ← not_lt, not_iff_not]
  exact floatVal_pos p

theorem jsRoundF_eq_jsRound (p : Int × Nat) :
    jsRoundF p = jsRound (floatVal p) := by
  unfold jsRoundF jsRound floatVal
  have he : (p.1 : ℚ) / 10 ^ p.2 + 1/2
      = ((2 * p.1 + 10 ^ p.2 : Int) : ℚ) / ((2 * 10 ^ p.2 : ℕ) : ℚ) := by
    have h10 : ((10:ℚ) ^ p.2) ≠ 0 := by positivity
    field_simp
    ring
  rw [he, Rat.floor_intCast_div_natCast]
  push_cast
  rfl

/-- The trimmed, non-blank lines of the raw input.  Splitting on `\n` and
trimming each line is equivalent to the source's split on `/\r?\n/`
followed by trimming. -/
def planRows (raw : String) : List String :=
  ((splitNl raw.toList).map (fun l => jsTrim (String.mk l))).filter
    (fun l => !(l == ""))

/-- A line-numbered parse error message. -/
def errLine (n : Nat) (msg : String) : String :=
  "Line " ++ toString n ++ ": " ++ msg

/-- The body of the source's `rows.forEach` callback: process one line,
accumulating plan entries and errors. -/
def processRow (tz : Int) (acc : List (String × PlanEntry) × List String)
    (index : Nat) (line : String) :
    List (String × PlanEntry) × List String :=
  let split := splitCsvLine line
  if split.2 then
    (acc.1, acc.2 ++ [errLine (index+1) "missing closing quote."])
  else
    let normalizedCells := split.1.map normalizeCell
    if decide (index = 0) && normalizedCells.any (fun c => strContainsCI c "date")
        && normalizedCells.any (fun c => strContainsCI c "duration") then
      acc
    else if normalizedCells.length < 2 then
      (acc.1, acc.2 ++ [errLine (index+1)
        "expected at least two columns (date,duration)."])
    else
      let dateValue := normalizedCells.getD 0 ""
      let durationValue := normalizedCells.getD 1 ""
      let noteValue : Option String := normalizedCells.get? 2
      match jsParseDate dateValue with
      | none => (acc.1, acc.2 ++ [errLine (index+1)
          ("could not understand date \"" ++ dateValue ++ "\".")])
      | some ts =>
        match jsParseFloat durationValue with
        | none => (acc.1, acc.2 ++ [errLine (index+1)
            "duration should be a positive number."])
        | some q =>
          if q.1 ≤ 0 then
            (acc.1, acc.2 ++ [errLine (index+1)
              "duration should be a positive number."])
          else
            (jsSet acc.1 (formatKey tz ts)
              ⟨jsRoundF q,
                match noteValue with
                | some nv => if nv.length ≠ 0 then some nv else none
                | none => none⟩,
             acc.2)

/-- Indexed fold of `processRow` over the rows. -/
def processRows (tz : Int) (acc : List (String × PlanEntry) × List String) :
    Nat → List String → List (String × PlanEntry) × List String
  | _, [] => acc
  | i, r :: rs => processRows tz (processRow tz acc i r) (i+1) rs

/-- `parsePlan` from the source: empty (after trimming) input yields an
empty plan and no errors; otherwise every non-blank line is processed in
order. -/
def parsePlan (tz : Int) (raw : String) :
    List (String × PlanEntry) × List String :=
  if jsTrim raw = "" then ([], [])
  else processRows tz ([], []) 0 (planRows raw)

/-! ## Plan merging and the per-day duration text (manual-override variant) -/

/-- Object property lookup (keys of a JavaScript object are unique, so the
first match is the match). -/
def jsLookup (k : String) : List (String × PlanEntry) → Option PlanEntry
  | [] => none
  | p :: m => if p.1 = k then some p.2 else jsLookup k m

/-- `combinedPlan` from the source: start from a copy of the parsed plan;
each manual override with positive duration replaces or inserts its key,
any other override deletes its key. -/
def combinedPlan (plan manual : List (String × PlanEntry)) :
    List (String × PlanEntry) :=
  manual.foldl
    (fun merged kv =>
      if kv.2.duration > 0 then jsSet merged kv.1 kv.2 else jsDelete merged kv.1)
    plan

/-- `hasCustomPlanData` from the source: the merged plan has entries. -/
def hasCustomPlanData (plan manual : List (String × PlanEntry)) : Bool :=
  decide (0 < (combinedPlan plan manual).length)

/-- The per-day duration text of the renderer: manual override first, then
parsed plan entry; with neither, blank when any merged plan data exists,
else the default ramp. -/
def durationText (tz : Int) (plan manual : List (String × PlanEntry))
    (date : Int) : String :=
  let key := formatKey tz date
  let manualEntry := jsLookup key manual
  let planEntry := jsLookup key plan
  let effectiveDuration : Option Int :=
    match manualEntry with
    | some e => some e.duration
    | none => match planEntry with
      | some e => some e.duration
      | none => none
  match effectiveDuration with
  | some n => toString n ++ " min"
  | none =>
    if hasCustomPlanData plan manual then ""
    else toString (getDefaultDuration tz date) ++ " min"

/-- The claim's description of the per-day duration lookup, written from
the specification: manual override, else parsed plan entry, else unplanned
(blank) when any plan data exists anywhere, else the default ramp. -/
def specDurationText (tz : Int) (plan manual : List (String × PlanEntry))
    (date : Int) : String :=
  match jsLookup (formatKey tz date) manual with
  | some e => toString e.duration ++ " min"
  | none =>
    match jsLookup (formatKey tz date) plan with
    | some e => toString e.duration ++ " min"
    | none =>
      if hasCustomPlanData plan manual then ""
      else toString (getDefaultDuration tz date) ++ " min"

/-! ### Lookup lemmas for the object model -/

theorem jsSet_lookup_self (m : List (String × PlanEntry)) (k : String)
    (v : PlanEntry) : jsLookup k (jsSet m k v) = some v := by
  induction m with
  | nil => simp [jsSet, jsLookup]
  | cons p m ih =>
    by_cases h : p.1 = k
    · simp [jsSet, h, jsLookup]
    · simp [jsSet, h, jsLookup, ih]

theorem jsSet_lookup_ne (m : List (String × PlanEntry)) (k k' : String)
    (v : PlanEntry) (h : k' ≠ k) :
    jsLookup k' (jsSet m k v) = jsLookup k' m := by
  induction m with
  | nil => simp [jsSet, jsLookup, Ne.symm h]
  | cons p m ih =>
    by_cases hp : p.1 = k
    · subst hp
      simp [jsSet, jsLookup, Ne.symm h]
    · by_cases hk' : p.1 = k'
      · simp only [jsSet]
        rw [if_neg hp]
        simp [jsLookup, hk']
      · simp only [jsSet]
        rw [if_neg hp]
        simp [jsLookup, hk', ih]

theorem jsDelete_lookup_self (m : List (String × PlanEntry)) (k : String) :
    jsLookup k (jsDelete m k) = none := by
  induction m with
  | nil => simp [jsDelete, jsLookup]
  | cons p m ih =>
    by_cases h : p.1 = k
    · simpa [jsDelete, h] using ih
    · simpa [jsDelete, h, jsLookup] using ih

theorem jsDelete_lookup_ne (m : List (String × PlanEntry)) (k k' : String)
    (h : k' ≠ k) : jsLookup k' (jsDelete m k) = jsLookup k' m := by
  induction m with
  | nil => simp [jsDelete]
  | cons p m ih =>
    by_cases hp : p.1 = k
    · subst hp
      have hfilter : jsDelete (p :: m) p.1 = jsDelete m p.1 := by
        simp [jsDelete, List.filter]
      rw [hfilter, ih]
      simp [jsLookup, Ne.symm h]
    · have hih : jsLookup k' (List.filter (fun q => !(q.1 == k)) m)
          = jsLookup k' m := ih
      have hbeq : (p.1 == k) = false := by
        simp [hp]
      have hfilter : jsDelete (p :: m) k = p :: jsDelete m k := by
        simp [jsDelete, List.filter, hbeq]
      rw [hfilter]
      by_cases hk : p.1 = k' <;> simp [jsLookup, hk, hih, ih]

theorem jsLookup_eq_none_of_not_mem (m : List (String × PlanEntry))
    (k : String) (h : k ∉ m.map Prod.fst) : jsLookup k m = none := by
  induction m with
  | nil => rfl
  | cons p m ih =>
    simp only [List.map_cons, List.mem_cons] at h
    push_neg at h
    simp only [jsLookup]
    rw [if_neg (fun he => h.1 he.symm)]
    exact ih h.2

theorem jsSet_ne_nil (m : List (String × PlanEntry)) (k : String)
    (v : PlanEntry) : jsSet m k v ≠ [] := by
  cases m with
  | nil => simp [jsSet]
  | cons q m =>
    simp only [jsSet]
    split_ifs <;> simp

/-- Lookup characterisation of `combinedPlan`: an override with positive
duration wins, an override with non-positive duration deletes, otherwise
the parsed plan answers. -/
theorem combinedPlan_lookup (manual : List (String × PlanEntry)) :
    ∀ (plan : List (String × PlanEntry)) (k : String),
      (manual.map Prod.fst).Nodup →
      jsLookup k (combinedPlan plan manual)
        = match jsLookup k manual with
          | some e => if e.duration > 0 then some e else none
          | none => jsLookup k plan := by
  induction manual with
  | nil => intro plan k _; rfl
  | cons p rest ih =>
    intro plan k hnd
    rw [List.map_cons, List.nodup_cons] at hnd
    have hstep : combinedPlan plan (p :: rest)
        = combinedPlan
            (if p.2.duration > 0 then jsSet plan p.1 p.2 else jsDelete plan p.1)
            rest := rfl
    rw [hstep, ih _ k hnd.2]
    by_cases hk : p.1 = k
    · subst hk
      have hrest : jsLookup p.1 rest = none :=
        jsLookup_eq_none_of_not_mem rest p.1 hnd.1
      rw [hrest]
      show (jsLookup p.1
          (if p.2.duration > 0 then jsSet plan p.1 p.2 else jsDelete plan p.1))
        = match jsLookup p.1 (p :: rest) with
          | some e => if e.duration > 0 then some e else none
          | none => jsLookup p.1 plan
      have hlk : jsLookup p.1 (p :: rest) = some p.2 := by
        simp [jsLookup]
      rw [hlk]
      show jsLookup p.1
          (if p.2.duration > 0 then jsSet plan p.1 p.2 else jsDelete plan p.1)
        = if p.2.duration > 0 then some p.2 else none
      by_cases hd : p.2.duration > 0
      · rw [if_pos hd, if_pos hd, jsSet_lookup_self]
      · rw [if_neg hd, if_neg hd, jsDelete_lookup_self]
    · have hcons : jsLookup k (p :: rest) = jsLookup k rest := by
        simp [jsLookup, hk]
      rw [hcons]
      cases hjr : jsLookup k rest with
      | some e => rfl
      | none =>
        show (jsLookup k
            (if p.2.duration > 0 then jsSet plan p.1 p.2 else jsDelete plan p.1))
          = jsLookup k plan
        by_cases hd : p.2.duration > 0
        · rw [if_pos hd, jsSet_lookup_ne plan p.1 k p.2 (fun he => hk he.symm)]
        · rw [if_neg hd, jsDelete_lookup_ne plan p.1 k (fun he => hk he.symm)]

/-- Claim C4: merging equals the parsed plan updated by the overrides —
positive-duration overrides replace or insert their key, non-positive ones
remove the key even when the parsed plan has it; in particular a
zero-duration override for a date with a parsed entry leaves no entry at
all for that date. -/
theorem C4_combinedPlan (plan manual : List (String × PlanEntry)) (k : String)
    (hnd : (manual.map Prod.fst).Nodup) :
    (jsLookup k (combinedPlan plan manual)
      = match jsLookup k manual with
        | some e => if e.duration > 0 then some e else none
        | none => jsLookup k plan) ∧
    (∀ e0, jsLookup k manual = some e0 → e0.duration ≤ 0 →
      jsLookup k (combinedPlan plan manual) = none) := by
  have h := combinedPlan_lookup manual plan k hnd
  refine ⟨h, ?_⟩
  intro e0 he hd
  rw [h, he]
  show (if e0.duration > 0 then some e0 else none) = none
  rw [if_neg (by omega)]

theorem C4_combinedPlan_witness :
    jsLookup "2024-01-01"
      (combinedPlan [("2024-01-01", ⟨15, none⟩)] [("2024-01-01", ⟨0, none⟩)])
      = none := by
  exact (C4_combinedPlan [("2024-01-01", ⟨15, none⟩)]
    [("2024-01-01", ⟨0, none⟩)] "2024-01-01" (by decide)).2
    ⟨0, none⟩ (by decide) (by decide)

/-- Claim C5: the renderer's per-day duration text follows the precedence
manual override, then parsed plan entry, then blank when any merged plan
data exists anywhere, and the default ramp only when there is no plan data
at all; and (for override maps that carry only positive durations, the
only state the editor produces) "no plan data at all system-wide" means
both the parsed plan and the override map are empty. -/
theorem C5_durationText :
    (∀ (tz : Int) (plan manual : List (String × PlanEntry)) (date : Int),
      durationText tz plan manual date = specDurationText tz plan manual date) ∧
    (∀ plan manual : List (String × PlanEntry),
      (∀ p ∈ manual, 0 < p.2.duration) →
      (combinedPlan plan manual = [] ↔ plan = [] ∧ manual = [])) := by
  constructor
  · intro tz plan manual date
    simp only [durationText, specDurationText]
    cases h1 : jsLookup (formatKey tz date) manual with
    | some e => rfl
    | none =>
      cases h2 : jsLookup (formatKey tz date) plan with
      | some e => rfl
      | none => rfl
  · intro plan manual
    induction manual generalizing plan with
    | nil => simp [combinedPlan]
    | cons p rest ih =>
      intro hpos
      have hp := hpos p (List.mem_cons_self p rest)
      have hstep : combinedPlan plan (p :: rest)
          = combinedPlan (jsSet plan p.1 p.2) rest := by
        show combinedPlan
            (if p.2.duration > 0 then jsSet plan p.1 p.2 else jsDelete plan p.1)
            rest = _
        rw [if_pos hp]
      rw [hstep, ih (jsSet plan p.1 p.2)
        (fun q hq => hpos q (List.mem_cons_of_mem p hq))]
      simp [jsSet_ne_nil]

/-! ## Claims about the parser -/

/-- The raw CSV input of claim C1 (the spec's example, including the
`bad-line` row). -/
def samplePlanInput : String :=
  "date,duration,note\n2024-01-01,15,\"Ease in\"\n2024-01-08,25,\nbad-line,,\n2024-01-15,35"

/-- Claim C1, counterexample: in a UTC+1 environment (`tz = 60`) the plan
map stores the first row under key "2023-12-31", not "2024-01-01" — the
combination of UTC date parsing and `formatKey`'s UTC rendering shifts
every key by one day whenever the host offset is not zero. -/
theorem C1_parsePlan_counterexample :
    (jsLookup "2024-01-01" (parsePlan 60 samplePlanInput).1 = none ∧
      jsLookup "2023-12-31" (parsePlan 60 samplePlanInput).1
        = some ⟨15, some "Ease in"⟩) ∧
    (jsLookup "2024-01-01" (parsePlan (-300) samplePlanInput).1 = none ∧
      jsLookup "2023-12-31" (parsePlan (-300) samplePlanInput).1
        = some ⟨15, some "Ease in"⟩) := by
  decide

/-- Claim C1, amended: in an environment whose UTC offset is zero,
parsing the sample input yields exactly the three claimed entries in order
and exactly the one claimed error for the `bad-line` row. -/
theorem C1_parsePlan_amended :
    parsePlan 0 samplePlanInput
      = ([("2024-01-01", ⟨15, some "Ease in"⟩),
          ("2024-01-08", ⟨25, none⟩),
          ("2024-01-15", ⟨35, none⟩)],
         ["Line 4: could not understand date \"bad-line\"."]) := by
  decide

/-- Claim C10: a first line that is a well-formed data row — its date cell
parses and its duration cell is a finite positive number, and without the
note column the row stores an entry — is silently skipped as a header,
with no entry and no error, when its note cell contains both "date" and
"duration" as case-insensitive substrings. -/
theorem C10_header_false_positive :
    (jsParseDate "2024-01-02").isSome = true ∧
    (∃ q, jsParseFloat "30" = some q ∧ 0 < floatVal q) ∧
    parsePlan 0 "2024-01-02,30" = ([("2024-01-02", ⟨30, none⟩)], []) ∧
    parsePlan 0 "2024-01-02,30,update duration" = ([], []) := by
  refine ⟨by decide, ⟨(30, 0), by decide, (floatVal_pos _).mpr (by decide)⟩,
    by decide, by decide⟩

/-- Claim C9: a line that ends inside an open quote contributes exactly the
"missing closing quote." error for its (1-based, post-filter) line number
and leaves the plan map untouched, and processing continues: a line that is
a lone quote character yields only that error while the following valid
line still stores its entry. -/
theorem C9_missing_quote :
    (∀ (tz : Int) (map : List (String × PlanEntry)) (errors : List String)
        (i : Nat) (line : String),
      (splitCsvLine line).2 = true →
      processRow tz (map, errors) i line
        = (map, errors ++ [errLine (i+1) "missing closing quote."])) ∧
    parsePlan 0 "\"\n2024-01-05,20"
      = ([("2024-01-05", ⟨20, none⟩)], ["Line 1: missing closing quote."]) := by
  constructor
  · intro tz map errors i line h
    simp [processRow, h]
  · decide

theorem C9_missing_quote_witness :
    processRow 0 ([], []) 0 "\"" = ([], ["Line 1: missing closing quote."]) :=
  (C9_missing_quote.1 0 [] [] 0 "\"" (by decide)).trans (by decide)

/-- Cell normalisation as the amended claim describes it: trim, after
stripping one leading quote when present and one trailing quote when
present, each independently of the other. -/
def amendedNormalize (s : String) : String :=
  let l := s.toList
  let l1 := if l.head? = some '"' then l.drop 1 else l
  let l2 := if l1.getLast? = some '"' then l1.dropLast else l1
  jsTrim (String.mk l2)

/-- Claim C8, counterexample: the tokenizer turns the quoted field
`"""abc"` into the cell `"abc` whose leading quote is an escaped literal
quote, and normalisation strips it anyway — the stored note is `abc`, not
`"abc` as the claim requires for a one-ended or escaped boundary quote. -/
theorem C8_normalize_counterexample :
    (splitCsvLine "\"\"\"abc\"").1 = ["\"abc"] ∧
    normalizeCell "\"abc" = "abc" ∧
    ¬ normalizeCell "\"abc" = "\"abc" ∧
    parsePlan 0 "2024-01-01,15,\"\"\"abc\""
      = ([("2024-01-01", ⟨15, some "abc"⟩)], []) := by
  decide

/-- Claim C8, amended: normalisation trims the cell and strips one leading
quote (if present) and one trailing quote (if present) independently,
whether or not the two ends are a matching pair and regardless of how the
quote got into the cell. -/
theorem C8_normalize_amended (s : String) :
    normalizeCell s = amendedNormalize s := by
  simp only [normalizeCell, stripOuterQuotes, amendedNormalize]
  cases hq : (if s.toList.head? = some '"' then s.toList.drop 1 else s.toList) with
  | nil => simp
  | cons a as => simp

/-- Membership in an updated object comes from the old object or is the
new binding. -/
theorem jsSet_mem (m : List (String × PlanEntry)) (k : String) (v : PlanEntry)
    (p : String × PlanEntry) (hp : p ∈ jsSet m k v) : p ∈ m ∨ p = (k, v) := by
  induction m with
  | nil =>
    simp only [jsSet, List.mem_singleton] at hp
    right
    exact hp
  | cons q m ih =>
    simp only [jsSet] at hp
    by_cases h : q.1 = k
    · rw [if_pos h] at hp
      rcases List.mem_cons.mp hp with h1 | h1
      · right; exact h1
      · left; exact List.mem_cons_of_mem q h1
    · rw [if_neg h] at hp
      rcases List.mem_cons.mp hp with h1 | h1
      · left; exact h1 ▸ List.mem_cons_self q m
      · rcases ih h1 with h2 | h2
        · left; exact List.mem_cons_of_mem q h2
        · right; exact h2

/-- Every entry a processed row adds satisfies the stored-entry invariant:
non-negative duration that is the rounding of a positive parsed value, and
a non-empty note when a note is present. -/
theorem processRow_entries (tz : Int)
    (acc : List (String × PlanEntry) × List String) (i : Nat) (line : String)
    (p : String × PlanEntry) (hp : p ∈ (processRow tz acc i line).1) :
    p ∈ acc.1 ∨ (0 ≤ p.2.duration ∧ p.2.note ≠ some "" ∧
      ∃ qr : ℚ, 0 < qr ∧ p.2.duration = jsRound qr) := by
  simp only [processRow] at hp
  split at hp
  · left; exact hp
  · split at hp
    · left; exact hp
    · split at hp
      · left; exact hp
      · split at hp
        · left; exact hp
        · split at hp
          · left; exact hp
          · split at hp
            · left; exact hp
            · rename_i ts hts q hq hpos
              rcases jsSet_mem _ _ _ _ hp with hmem | heq
              · left; exact hmem
              · right
                rw [heq]
                refine ⟨?_, ?_, floatVal q, ?_, ?_⟩
                · rw [jsRoundF_eq_jsRound]
                  unfold jsRound
                  rw [Int.le_floor]
                  have := (floatVal_pos q).mpr (by omega)
                  push_cast
                  linarith
                · split
                  · split_ifs with hlen
                    · intro hcon
                      rename_i nv hnv
                      rw [Option.some_inj] at hcon
                      rw [hcon] at hlen
                      exact hlen rfl
                    · simp
                  · simp
                · exact (floatVal_pos q).mpr (by omega)
                · rw [jsRoundF_eq_jsRound]

/-- The stored-entry invariant is preserved across all rows. -/
theorem processRows_entries (tz : Int) (rows : List String) :
    ∀ (acc : List (String × PlanEntry) × List String) (i : Nat)
      (p : String × PlanEntry),
      p ∈ (processRows tz acc i rows).1 →
      p ∈ acc.1 ∨ (0 ≤ p.2.duration ∧ p.2.note ≠ some "" ∧
        ∃ qr : ℚ, 0 < qr ∧ p.2.duration = jsRound qr) := by
  induction rows with
  | nil => intro acc i p hp; left; exact hp
  | cons r rs ih =>
    intro acc i p hp
    rcases ih (processRow tz acc i r) (i+1) p hp with h | h
    · exact processRow_entries tz acc i r p h
    · right; exact h

/-- Claim C7, counterexample: the duration cell `0.3` is finite and
strictly positive, so the row is accepted, but `Math.round(0.3)` is `0`:
the stored entry's duration is not strictly positive. -/
theorem C7_duration_counterexample :
    ∃ e : PlanEntry, jsLookup "2024-01-01" (parsePlan 0 "2024-01-01,0.3").1
      = some e ∧ ¬ 0 < e.duration := by
  refine ⟨⟨0, none⟩, by decide, by decide⟩

/-- Claim C7, amended: every stored plan entry has a non-negative integer
duration that is the nearest-integer rounding of a strictly positive
finite parsed value (zero exactly when that value is below one half), and
its note, when present, is non-empty; a duration cell that is not finite
and strictly positive is rejected with the "duration should be a positive
number." error and contributes no entry. -/
theorem C7_duration_amended :
    (∀ (tz : Int) (raw : String) (p : String × PlanEntry),
      p ∈ (parsePlan tz raw).1 →
      0 ≤ p.2.duration ∧ p.2.note ≠ some "" ∧
        ∃ qr : ℚ, 0 < qr ∧ p.2.duration = jsRound qr) ∧
    (∀ (tz : Int) (acc : List (String × PlanEntry) × List String) (i : Nat)
        (line : String),
      (splitCsvLine line).2 = false →
      (decide (i = 0)
        && ((splitCsvLine line).1.map normalizeCell).any
          (fun c => strContainsCI c "date")
        && ((splitCsvLine line).1.map normalizeCell).any
          (fun c => strContainsCI c "duration")) = false →
      ¬ ((splitCsvLine line).1.map normalizeCell).length < 2 →
      (jsParseDate (((splitCsvLine line).1.map normalizeCell).getD 0 "")).isSome
        = true →
      (∀ q, jsParseFloat (((splitCsvLine line).1.map normalizeCell).getD 1 "")
        = some q → q.1 ≤ 0) →
      processRow tz acc i line
        = (acc.1, acc.2 ++ [errLine (i+1)
            "duration should be a positive number."])) := by
  constructor
  · intro tz raw p hp
    unfold parsePlan at hp
    split at hp
    · simp at hp
    · rcases processRows_entries tz (planRows raw) ([], []) 0 p hp with h | h
      · simp at h
      · exact h
  · intro tz acc i line h1 h2 h3 h4 h5
    simp only [processRow, h1, h2, Bool.false_eq_true, if_false]
    rw [if_neg h3]
    obtain ⟨ts, hts⟩ := Option.isSome_iff_exists.mp h4
    cases hq : jsParseFloat (((splitCsvLine line).1.map normalizeCell).getD 1 "")
      with
    | none => simp only [hts, hq]
    | some q => simp only [hts, hq, if_pos (h5 q hq)]

theorem C7_duration_amended_witness :
    (("2024-01-01", (⟨15, none⟩ : PlanEntry)) ∈ (parsePlan 0 "2024-01-01,15").1)
    ∧ (0 ≤ (⟨15, none⟩ : PlanEntry).duration ∧
      (⟨15, none⟩ : PlanEntry).note ≠ some "" ∧
      ∃ qr : ℚ, 0 < qr ∧ (⟨15, none⟩ : PlanEntry).duration = jsRound qr) :=
  ⟨by decide, C7_duration_amended.1 0 "2024-01-01,15"
    ("2024-01-01", ⟨15, none⟩) (by decide)⟩

theorem C5_durationText_witness :
    (durationText 0 [] [] 0 = specDurationText 0 [] [] 0) ∧
    (combinedPlan [("2024-01-01", ⟨15, none⟩)] [("2024-01-02", ⟨20, none⟩)] = []
      ↔ ([("2024-01-01", (⟨15, none⟩ : PlanEntry))] : List (String × PlanEntry))
          = [] ∧
        ([("2024-01-02", (⟨20, none⟩ : PlanEntry))] : List (String × PlanEntry))
          = []) :=
  ⟨C5_durationText.1 0 [] [] 0,
   C5_durationText.2 _ _ (by decide)⟩

theorem C3_buildCalendar_grid_witness :
    0 < (buildCalendar 0 1704067200000).length ∧
    (buildCalendar 0 1704067200000).length % 7 = 0 ∧
    ∃ cell ∈ buildCalendar 0 1704067200000,
      jsLocalDay 0 cell.date = 19723 ∧ cell.isCurrentMonth = true :=
  ⟨(C3_buildCalendar_grid 0 1704067200000).1,
   (C3_buildCalendar_grid 0 1704067200000).2.1,
   (C3_buildCalendar_grid 0 1704067200000).2.2.2.2.2.1 19723 (by decide) (by decide)⟩

/-- Claim C3, counterexample: a reference date whose local year is 50 (the
timestamp of 0050-01-01 UTC, a valid `Date` value).  The `Date`
constructor maps the year argument 50 to 1950, so `buildCalendar` produces
the grid of January 1950: no cell lies in the reference's own year, every
current-flagged cell lies in 1950, and current-flagged cells do exist — so
no day of the reference's month appears with `isCurrentMonth = true`. -/
theorem C3_buildCalendar_counterexample :
    getFullYear 0 (-60589296000000) = 50 ∧
    getMonth 0 (-60589296000000) = 0 ∧
    (∀ cell ∈ buildCalendar 0 (-60589296000000),
      ¬ getFullYear 0 cell.date = getFullYear 0 (-60589296000000)) ∧
    (∀ cell ∈ buildCalendar 0 (-60589296000000),
      cell.isCurrentMonth = true → getFullYear 0 cell.date = 1950) ∧
    (∃ cell ∈ buildCalendar 0 (-60589296000000),
      cell.isCurrentMonth = true) := by
  decide

theorem C6_default_ramp_witness :
    getDefaultDuration 0 0 ≤ getDefaultDuration 0 864000000 ∧
    DEFAULT_START_DURATION ≤ getDefaultDuration 0 0 ∧
    getDefaultDuration 0 0 ≤ TARGET_DURATION :=
  ⟨C6_default_ramp.1 0 0 864000000 (by decide) (by decide) (by decide),
   (C6_default_ramp.2 0 0).1,
   (C6_default_ramp.2 0 0).2⟩
